import Mathlib

/- Verification of the diagram rendering and document-export pipeline
   (docs/render_diagrams.py and docs/generate_pdf.py).  Python strings are
   modelled as `List Char`; Python's `\s` character class is modelled by its
   ASCII members.  Regular-expression matching is determinised: every pattern
   used by the source has the shape literal / maximal-run / literal where the
   literal following a run starts with a character the run cannot absorb, so
   greedy or lazy backtracking never revisits a shorter run. -/

/-- ASCII whitespace, the characters matched by Python's `\s` on this input. -/
def isWsChar (c : Char) : Bool :=
  c = ' ' || c = '\t' || c = '\n' || c = '\r' || c = '\x0b' || c = '\x0c'

/-- Match a literal pattern at the head of the input, returning the rest. -/
def stripPre : List Char → List Char → Option (List Char)
  | [], s => some s
  | _ :: _, [] => none
  | p :: ps, c :: cs => if c = p then stripPre ps cs else none

/-- Does the pattern occur as a contiguous sublist anywhere in the input? -/
def hasSub (pat : List Char) : List Char → Bool
  | [] => (stripPre pat []).isSome
  | c :: cs => (stripPre pat (c :: cs)).isSome || hasSub pat cs

theorem stripPre_nil_left (s : List Char) : stripPre [] s = some s := rfl

theorem stripPre_length {p s t : List Char} (h : stripPre p s = some t) :
    t.length + p.length = s.length := by
  induction p generalizing s t with
  | nil => simp [stripPre] at h; simp [h]
  | cons a ps ih =>
    cases s with
    | nil => simp [stripPre] at h
    | cons c cs =>
      simp only [stripPre] at h
      split at h
      · have := ih h
        simp [List.length_cons]
        omega
      · exact absurd h (by simp)

theorem stripPre_self_append (p r : List Char) : stripPre p (p ++ r) = some r := by
  induction p with
  | nil => rfl
  | cons a ps ih => simp [stripPre, ih]

theorem stripPre_append_left {p t r u : List Char} (h : stripPre p (t ++ r) = some u)
    (hle : p.length ≤ t.length) : ∃ u', stripPre p t = some u' := by
  induction p generalizing t u with
  | nil => exact ⟨t, rfl⟩
  | cons a ps ih =>
    cases t with
    | nil => simp at hle
    | cons c ts =>
      simp only [List.cons_append, stripPre] at h ⊢
      split at h
      · next hc =>
        simp only [hc, if_pos rfl]
        exact ih h (by simpa using hle)
      · exact absurd h (by simp)

theorem stripPre_append_split {p t r u : List Char} (h : stripPre p (t ++ r) = some u)
    (hle : t.length ≤ p.length) : stripPre (p.drop t.length) r = some u := by
  induction t generalizing p u with
  | nil => simpa using h
  | cons c ts ih =>
    cases p with
    | nil => simp at hle
    | cons a ps =>
      simp only [List.cons_append, stripPre] at h
      split at h
      · simpa using ih h (by simpa using hle)
      · exact absurd h (by simp)

theorem getD_drop (l : List Char) (k : Nat) (h : k < l.length) :
    l.drop k = l.getD k ' ' :: l.drop (k + 1) := by
  induction l generalizing k with
  | nil => simp at h
  | cons c cs ih =>
    cases k with
    | zero => simp [List.getD]
    | succ n =>
      simp only [List.drop_succ_cons, List.getD_cons_succ]
      exact ih n (by simpa using h)

/-- A pattern whose only `<` is its first character cannot begin strictly inside
a junk segment and finish across the junction into text that starts with `<`. -/
theorem stripPre_straddle {p t r' u : List Char} (hne : t ≠ []) (hlt : t.length < p.length)
    (hp : ∀ k, k < p.length → 0 < k → ¬ p.getD k ' ' = '<')
    (h : stripPre p (t ++ '<' :: r') = some u) : False := by
  have h2 := stripPre_append_split h (Nat.le_of_lt hlt)
  rw [getD_drop p t.length hlt] at h2
  simp only [stripPre] at h2
  split at h2
  · next hc =>
    have hpos : 0 < t.length := List.length_pos.mpr hne
    exact hp t.length hlt hpos hc.symm
  · exact absurd h2 (by simp)

theorem isSome_false {α : Type} {o : Option α} (h : o.isSome = false) : o = none := by
  cases o with
  | none => rfl
  | some v => simp at h

theorem hasSub_cons_false {p : List Char} {c : Char} {cs : List Char}
    (h : hasSub p (c :: cs) = false) : hasSub p cs = false := by
  simp only [hasSub, Bool.or_eq_false_iff] at h
  exact h.2

theorem hasSub_false_strip {p s : List Char} (h : hasSub p s = false) :
    ∀ t, t <:+ s → stripPre p t = none := by
  induction s with
  | nil =>
    intro t ht
    rw [List.suffix_nil.mp ht]
    simp only [hasSub] at h
    exact isSome_false h
  | cons c cs ih =>
    intro t ht
    rcases List.suffix_cons_iff.mp ht with h1 | h1
    · simp only [hasSub, Bool.or_eq_false_iff] at h
      rw [h1]; exact isSome_false h.1
    · exact ih (hasSub_cons_false h) t h1

/-- Failure of a `<`-headed pattern at every position strictly inside a junk
segment followed by text beginning with `<`. -/
theorem strip_fail_in_junk {p j : List Char} (r' : List Char)
    (hj : hasSub p j = false)
    (hp : ∀ k, k < p.length → 0 < k → ¬ p.getD k ' ' = '<') :
    ∀ t, t <:+ j → t ≠ [] → stripPre p (t ++ '<' :: r') = none := by
  intro t ht hne
  cases h : stripPre p (t ++ '<' :: r') with
  | none => rfl
  | some u =>
    exfalso
    rcases Nat.lt_or_ge t.length p.length with hlt | hge
    · exact stripPre_straddle hne hlt hp h
    · obtain ⟨u', hu'⟩ := stripPre_append_left h hge
      have := hasSub_false_strip hj t ht
      rw [this] at hu'
      exact absurd hu' (by simp)

theorem suffix_append_cases {t x y : List Char} (h : t <:+ x ++ y) :
    t <:+ y ∨ ∃ t', t' <:+ x ∧ t' ≠ [] ∧ t = t' ++ y := by
  induction x with
  | nil => exact Or.inl (by simpa using h)
  | cons c x' ih =>
    obtain ⟨s, hs⟩ := h
    cases s with
    | nil =>
      right
      exact ⟨c :: x', List.suffix_refl _, by simp, by simpa using hs⟩
    | cons d s' =>
      simp only [List.cons_append] at hs
      have hd := hs
      injection hd with h1 h2
      rcases ih ⟨s', h2⟩ with h3 | ⟨t', ht', hne, rfl⟩
      · exact Or.inl h3
      · exact Or.inr ⟨t', List.suffix_cons_iff.mpr (Or.inr ht'), hne, rfl⟩

/-- Opening literal of the diagram-block pattern, the `<pre` of
`<pre\s+class="mermaid">` in `extract_mermaid_blocks`. -/
def preOpen : List Char := ['<', 'p', 'r', 'e']

/-- Literal that follows the whitespace run in the diagram-block opener. -/
def preClass : List Char :=
  ['c', 'l', 'a', 's', 's', '=', '\x22', 'm', 'e', 'r', 'm', 'a', 'i', 'd', '\x22', '>']

/-- Closing delimiter `</pre>` of a diagram block. -/
def preClose : List Char := ['<', '/', 'p', 'r', 'e', '>']

/-- Match the opener `<pre\s+class="mermaid">` at the head of the input and
return the remaining text.  The whitespace run is taken maximally; since the
following literal starts with `c`, which `\s` cannot match, this equals the
backtracking semantics of the Python pattern. -/
def matchOpen (s : List Char) : Option (List Char) :=
  match stripPre preOpen s with
  | none => none
  | some t =>
    let t2 := t.dropWhile isWsChar
    if t2.length = t.length then none
    else stripPre preClass t2

/-- Split the input at the first occurrence of `</pre>`, returning the text
before it and the text after it.  This is the end position the lazy `(.*?)`
of the Python pattern selects. -/
def findClose : List Char → Option (List Char × List Char)
  | [] => none
  | c :: cs =>
    match stripPre preClose (c :: cs) with
    | some rest => some ([], rest)
    | none =>
      match findClose cs with
      | some (pre, rest) => some (c :: pre, rest)
      | none => none

/-- Leading and trailing `\s` stripped from the captured block, the effect of
the greedy `\s*` before and after the lazy capture group. -/
def pyTrim (s : List Char) : List Char :=
  ((s.dropWhile isWsChar).reverse.dropWhile isWsChar).reverse

theorem length_dropWhile_le_len (p : Char → Bool) (l : List Char) :
    (l.dropWhile p).length ≤ l.length := by
  induction l with
  | nil => simp
  | cons c cs ih =>
    simp only [List.dropWhile_cons]
    split
    · simp only [List.length_cons]; omega
    · simp

theorem matchOpen_length {s t : List Char} (h : matchOpen s = some t) :
    t.length < s.length := by
  unfold matchOpen at h
  cases h1 : stripPre preOpen s with
  | none => rw [h1] at h; exact absurd h (by simp)
  | some t0 =>
    rw [h1] at h
    simp only at h
    split at h
    · exact absurd h (by simp)
    · next hne =>
      have hlen0 := stripPre_length h1
      have hlen2 := stripPre_length h
      have hd : (t0.dropWhile isWsChar).length ≤ t0.length := length_dropWhile_le_len isWsChar t0
      simp only [preOpen, preClass] at hlen0 hlen2
      simp only [List.length_cons] at hlen0 hlen2
      omega

theorem findClose_length {s pre rest : List Char} (h : findClose s = some (pre, rest)) :
    rest.length < s.length := by
  induction s generalizing pre rest with
  | nil => simp [findClose] at h
  | cons c cs ih =>
    unfold findClose at h
    cases h1 : stripPre preClose (c :: cs) with
    | some r =>
      rw [h1] at h
      simp only [Option.some.injEq, Prod.mk.injEq] at h
      have := stripPre_length h1
      simp only [preClose, List.length_cons] at this
      rw [← h.2]
      simp only [List.length_cons]
      omega
    | none =>
      rw [h1] at h
      simp only at h
      cases h2 : findClose cs with
      | none => rw [h2] at h; exact absurd h (by simp)
      | some pr =>
        rw [h2] at h
        cases pr with
        | mk p r =>
          simp only [Option.some.injEq, Prod.mk.injEq] at h
          have := ih h2
          rw [← h.2]
          simp only [List.length_cons]
          omega

/-- Fuel-indexed scanner behind `re.findall`: at each position try the full
pattern; on success continue after the closing delimiter, on failure advance
one character.  When no closing delimiter exists after a matched opener no
later start position can complete the pattern either (the opener text contains
no `/`), so the scan is finished. -/
def scanAux : Nat → List Char → List (List Char)
  | 0, _ => []
  | _ + 1, [] => []
  | fuel + 1, c :: cs =>
    match matchOpen (c :: cs) with
    | some t =>
      match findClose t with
      | some (inner, rest) => pyTrim inner :: scanAux fuel rest
      | none => []
    | none => scanAux fuel cs

/-- The `extract_mermaid_blocks` function of render_diagrams.py:
`re.findall(r'<pre\s+class="mermaid">\s*(.*?)\s*</pre>', html, re.DOTALL)`. -/
def extract_mermaid_blocks (html : List Char) : List (List Char) :=
  scanAux html.length html

theorem scanAux_congr : ∀ f g : Nat, ∀ s : List Char, s.length ≤ f → s.length ≤ g →
    scanAux f s = scanAux g s := by
  intro f
  induction f with
  | zero =>
    intro g s hf hg
    have : s = [] := List.length_eq_zero.mp (Nat.le_zero.mp hf)
    subst this
    cases g <;> rfl
  | succ f' ih =>
    intro g s hf hg
    cases s with
    | nil => cases g <;> rfl
    | cons c cs =>
      cases g with
      | zero => simp at hg
      | succ g' =>
        simp only [scanAux]
        cases h1 : matchOpen (c :: cs) with
        | none =>
          simp only
          exact ih g' cs (by simp at hf; omega) (by simp at hg; omega)
        | some t =>
          simp only
          cases h2 : findClose t with
          | none => rfl
          | some pr =>
            cases pr with
            | mk inner rest =>
              simp only
              have hlt1 := matchOpen_length h1
              have hlt2 := findClose_length h2
              simp only [List.length_cons] at hf hg hlt1
              exact congrArg (pyTrim inner :: ·) (ih g' rest (by omega) (by omega))

theorem extract_cons_none {c : Char} {cs : List Char} (h : matchOpen (c :: cs) = none) :
    extract_mermaid_blocks (c :: cs) = extract_mermaid_blocks cs := by
  unfold extract_mermaid_blocks
  simp only [List.length_cons, scanAux, h]

theorem extract_cons_some {c : Char} {cs t inner rest : List Char}
    (h1 : matchOpen (c :: cs) = some t) (h2 : findClose t = some (inner, rest)) :
    extract_mermaid_blocks (c :: cs) = pyTrim inner :: extract_mermaid_blocks rest := by
  unfold extract_mermaid_blocks
  simp only [List.length_cons, scanAux, h1, h2]
  have hlt1 := matchOpen_length h1
  have hlt2 := findClose_length h2
  simp only [List.length_cons] at hlt1
  exact congrArg (pyTrim inner :: ·) (scanAux_congr cs.length rest.length rest (by omega) (by omega))

theorem matchOpen_junk {j : List Char} (r' : List Char) (hj : hasSub preOpen j = false) :
    ∀ t, t <:+ j → t ≠ [] → matchOpen (t ++ '<' :: r') = none := by
  intro t ht hne
  have h := strip_fail_in_junk r' hj (by decide) t ht hne
  unfold matchOpen
  rw [h]

theorem extract_junk {j r' : List Char} (hj : hasSub preOpen j = false) :
    extract_mermaid_blocks (j ++ '<' :: r') = extract_mermaid_blocks ('<' :: r') := by
  induction j with
  | nil => simp
  | cons c j' ih =>
    have hnone : matchOpen (c :: (j' ++ '<' :: r')) = none := by
      have := matchOpen_junk r' hj (c :: j') (List.suffix_refl _) (by simp)
      simpa using this
    rw [List.cons_append, extract_cons_none hnone]
    exact ih (hasSub_cons_false hj)

theorem extract_no_open {s : List Char} (h : hasSub preOpen s = false) :
    extract_mermaid_blocks s = [] := by
  induction s with
  | nil => rfl
  | cons c cs ih =>
    have hnone : matchOpen (c :: cs) = none := by
      unfold matchOpen
      rw [hasSub_false_strip h (c :: cs) (List.suffix_refl _)]
    rw [extract_cons_none hnone]
    exact ih (hasSub_cons_false h)

theorem dropWhile_all_append {w y : List Char} {p : Char → Bool} (h : w.all p = true) :
    (w ++ y).dropWhile p = y.dropWhile p := by
  induction w with
  | nil => rfl
  | cons c w' ih =>
    simp only [List.all_cons, Bool.and_eq_true] at h
    simp only [List.cons_append, List.dropWhile_cons, h.1, if_pos]
    exact ih h.2

theorem matchOpen_block {w rest : List Char} (hw : w ≠ []) (hws : w.all isWsChar = true) :
    matchOpen (preOpen ++ (w ++ (preClass ++ rest))) = some rest := by
  unfold matchOpen
  rw [stripPre_self_append]
  have hdrop : (w ++ (preClass ++ rest)).dropWhile isWsChar = preClass ++ rest := by
    rw [dropWhile_all_append hws]
    simp only [preClass, List.cons_append, List.dropWhile_cons]
    rw [if_neg (by decide)]
  simp only [hdrop]
  rw [if_neg, stripPre_self_append]
  have := List.length_pos.mpr hw
  simp only [List.length_append]
  omega

theorem findClose_block {content : List Char} (rest : List Char)
    (h : hasSub preClose content = false) :
    findClose (content ++ (preClose ++ rest)) = some (content, rest) := by
  induction content with
  | nil =>
    simp only [List.nil_append, preClose, List.cons_append]
    unfold findClose
    have : stripPre preClose ('<' :: '/' :: 'p' :: 'r' :: 'e' :: '>' :: rest) = some rest := by
      have := stripPre_self_append preClose rest
      simpa [preClose] using this
    rw [this]
  | cons c cs ih =>
    have hfail : stripPre preClose ((c :: cs) ++ '<' :: ('/' :: 'p' :: 'r' :: 'e' :: '>' :: rest)) = none :=
      strip_fail_in_junk _ h (by decide) (c :: cs) (List.suffix_refl _) (by simp)
    have hfail2 : stripPre preClose (c :: (cs ++ (preClose ++ rest))) = none := by
      simpa [preClose] using hfail
    show findClose (c :: (cs ++ (preClose ++ rest))) = some (c :: cs, rest)
    unfold findClose
    rw [hfail2, ih (hasSub_cons_false h)]

/-- Document built from interleaved non-diagram text and correctly delimited
diagram blocks: each block is the opener literal, a nonempty whitespace run,
the class literal, the raw diagram content, and the closing delimiter. -/
def renderDoc : List (List Char × List Char × List Char) → List Char → List Char
  | [], final => final
  | (sep, w, content) :: parts, final =>
    sep ++ (preOpen ++ (w ++ (preClass ++ (content ++ (preClose ++ renderDoc parts final)))))

/-- Well-formedness of a document decomposition: non-diagram text never starts
a block opener, each whitespace run is nonempty and whitespace-only, and no
diagram content contains the closing delimiter (otherwise the block would not
be correctly delimited — the element would end at the embedded closer). -/
def goodParts : List (List Char × List Char × List Char) → List Char → Bool
  | [], final => !(hasSub preOpen final)
  | (sep, w, content) :: parts, final =>
    !(hasSub preOpen sep) && !w.isEmpty && w.all isWsChar &&
      !(hasSub preClose content) && goodParts parts final

/-- C3: for every document text containing N correctly delimited diagram
blocks, extraction returns exactly N entries, in source-document order,
regardless of the diagram content inside the blocks; with zero blocks it
returns the empty sequence (the `parts = []` instance). -/
theorem extraction_counts_blocks (parts : List (List Char × List Char × List Char))
    (final : List Char) (h : goodParts parts final = true) :
    extract_mermaid_blocks (renderDoc parts final) = parts.map (fun p => pyTrim p.2.2) := by
  induction parts with
  | nil =>
    simp only [goodParts, Bool.not_eq_true'] at h
    simpa using extract_no_open h
  | cons part parts ih =>
    obtain ⟨sep, w, content⟩ := part
    simp only [goodParts, Bool.and_eq_true, Bool.not_eq_true'] at h
    obtain ⟨⟨⟨⟨hsep, hwne⟩, hws⟩, hcont⟩, hrest⟩ := h
    have hwne' : w ≠ [] := by
      cases w with
      | nil => simp at hwne
      | cons a b => simp
    show extract_mermaid_blocks
        (sep ++ (preOpen ++ (w ++ (preClass ++ (content ++ (preClose ++ renderDoc parts final)))))) = _
    have hjunk := @extract_junk sep
      ('p' :: 'r' :: 'e' :: (w ++ (preClass ++ (content ++ (preClose ++ renderDoc parts final)))))
      hsep
    rw [show (preOpen ++ (w ++ (preClass ++ (content ++ (preClose ++ renderDoc parts final)))))
        = '<' :: 'p' :: 'r' :: 'e' :: (w ++ (preClass ++ (content ++ (preClose ++ renderDoc parts final))))
      from rfl]
    rw [hjunk]
    have h1 : matchOpen
        ('<' :: 'p' :: 'r' :: 'e' :: (w ++ (preClass ++ (content ++ (preClose ++ renderDoc parts final)))))
        = some (content ++ (preClose ++ renderDoc parts final)) := by
      have hb := @matchOpen_block w (content ++ (preClose ++ renderDoc parts final)) hwne' hws
      simpa [preOpen] using hb
    have h2 := findClose_block (renderDoc parts final) hcont
    rw [extract_cons_some h1 h2, ih hrest]
    simp

/-- Literal `<script` opening the CDN script-tag pattern of
`build_offline_html` in generate_pdf.py. -/
def scriptOpen7 : List Char := ['<', 's', 'c', 'r', 'i', 'p', 't']

/-- Literal `src="https://cdn.jsdelivr.net/npm/mermaid@` following the
whitespace run in the CDN script-tag pattern. -/
def scriptLit : List Char :=
  ['s', 'r', 'c', '=', '\x22', 'h', 't', 't', 'p', 's', ':', '/', '/',
   'c', 'd', 'n', '.', 'j', 's', 'd', 'e', 'l', 'i', 'v', 'r', '.', 'n', 'e', 't',
   '/', 'n', 'p', 'm', '/', 'm', 'e', 'r', 'm', 'a', 'i', 'd', '@']

/-- Literal `"></script>` closing the CDN script-tag pattern, after the
greedy `[^"]*` version run. -/
def scriptTail : List Char :=
  ['\x22', '>', '<', '/', 's', 'c', 'r', 'i', 'p', 't', '>']

/-- Match the pattern `<script\s+src="https://cdn.jsdelivr.net/npm/mermaid@[^"]*"></script>`
at the head of the input and return the remaining text.  The whitespace run
and the `[^"]*` run are taken maximally; the literals that follow them start
with `s` and `"` respectively, which the runs cannot absorb, so this equals
the Python backtracking semantics. -/
def matchScriptAt (s : List Char) : Option (List Char) :=
  match stripPre scriptOpen7 s with
  | none => none
  | some t =>
    let t2 := t.dropWhile isWsChar
    if t2.length = t.length then none
    else
      match stripPre scriptLit t2 with
      | none => none
      | some t3 => stripPre scriptTail (t3.dropWhile (fun c => !(c = '\x22')))

/-- Leftmost search for the CDN script-tag pattern, the `re.search` of
`build_offline_html`: returns the text before the match and after it. -/
def searchScript : List Char → Option (List Char × List Char)
  | [] => none
  | c :: cs =>
    match matchScriptAt (c :: cs) with
    | some rest => some ([], rest)
    | none =>
      match searchScript cs with
      | some (pre, rest) => some (c :: pre, rest)
      | none => none

/-- Does the document contain a network-sourced rendering-engine script
reference, i.e. does `re.search` of `build_offline_html` find a match? -/
def hasScriptRef (s : List Char) : Bool := (searchScript s).isSome

/-- The inline tag opener `<script>` written by `build_offline_html`. -/
def tagOpenL : List Char := ['<', 's', 'c', 'r', 'i', 'p', 't', '>']

/-- The inline tag closer `</script>` written by `build_offline_html`. -/
def tagCloseL : List Char := ['<', '/', 's', 'c', 'r', 'i', 'p', 't', '>']

/-- The text rewrite of `build_offline_html` in generate_pdf.py: replace the
first CDN mermaid script tag, when one exists, with `<script>` followed by
the engine code and `</script>`; otherwise return the document unchanged. -/
def build_offline_html (html code : List Char) : List Char :=
  match searchScript html with
  | some (before, after) => before ++ (tagOpenL ++ (code ++ (tagCloseL ++ after)))
  | none => html

theorem matchScriptAt_strip_none {s : List Char} (h : stripPre scriptOpen7 s = none) :
    matchScriptAt s = none := by
  unfold matchScriptAt
  rw [h]

theorem matchScriptAt_junk {j : List Char} (r' : List Char)
    (hj : hasSub scriptOpen7 j = false) :
    ∀ t, t <:+ j → t ≠ [] → matchScriptAt (t ++ '<' :: r') = none := by
  intro t ht hne
  exact matchScriptAt_strip_none (strip_fail_in_junk r' hj (by decide) t ht hne)

theorem matchScriptAt_block {w v rest : List Char} (hw : w ≠ [])
    (hws : w.all isWsChar = true) (hv : v.all (fun c => !(c = '\x22')) = true) :
    matchScriptAt (scriptOpen7 ++ (w ++ (scriptLit ++ (v ++ (scriptTail ++ rest))))) = some rest := by
  have hdrop : (w ++ (scriptLit ++ (v ++ (scriptTail ++ rest)))).dropWhile isWsChar
      = scriptLit ++ (v ++ (scriptTail ++ rest)) := by
    rw [dropWhile_all_append hws]
    simp only [scriptLit, List.cons_append, List.dropWhile_cons]
    rw [if_neg (by decide)]
  have hlen : ¬ ((scriptLit ++ (v ++ (scriptTail ++ rest))).length
      = (w ++ (scriptLit ++ (v ++ (scriptTail ++ rest)))).length) := by
    have := List.length_pos.mpr hw
    simp only [List.length_append]
    omega
  have hdrop2 : (v ++ (scriptTail ++ rest)).dropWhile (fun c => !(c = '\x22'))
      = scriptTail ++ rest := by
    rw [dropWhile_all_append hv]
    simp only [scriptTail, List.cons_append, List.dropWhile_cons]
    rw [if_neg (by decide)]
  unfold matchScriptAt
  rw [stripPre_self_append]
  simp only [hdrop, if_neg hlen, stripPre_self_append, hdrop2]

theorem searchScript_cons (c : Char) (cs : List Char) :
    searchScript (c :: cs) =
      match matchScriptAt (c :: cs) with
      | some rest => some ([], rest)
      | none =>
        match searchScript cs with
        | some (pre, rest) => some (c :: pre, rest)
        | none => none := rfl

theorem searchScript_junk_walk {j r : List Char}
    (h : ∀ t, t <:+ j → t ≠ [] → matchScriptAt (t ++ r) = none) :
    searchScript (j ++ r) = Option.map (fun pr => (j ++ pr.1, pr.2)) (searchScript r) := by
  induction j with
  | nil =>
    cases hr : searchScript r with
    | none => simp [hr]
    | some pr => cases pr with | mk p s => simp [hr]
  | cons c j' ih =>
    have hnone : matchScriptAt (c :: (j' ++ r)) = none := by
      simpa using h (c :: j') (List.suffix_refl _) (by simp)
    rw [List.cons_append, searchScript_cons, hnone]
    rw [ih (fun t ht hne => h t (List.suffix_cons_iff.mpr (Or.inr ht)) hne)]
    cases hr : searchScript r with
    | none => simp
    | some pr => cases pr with | mk p s => simp

theorem searchScript_none_of_all_fail {s : List Char}
    (h : ∀ t, t <:+ s → matchScriptAt t = none) : searchScript s = none := by
  induction s with
  | nil => rfl
  | cons c cs ih =>
    unfold searchScript
    rw [h (c :: cs) (List.suffix_refl _)]
    rw [ih (fun t ht => h t (List.suffix_cons_iff.mpr (Or.inr ht)))]

theorem hasScriptRef_append_right (pre a : List Char) (h : hasScriptRef a = true) :
    hasScriptRef (pre ++ a) = true := by
  induction pre with
  | nil => simpa using h
  | cons c p' ih =>
    unfold hasScriptRef at ih ⊢
    show (searchScript (c :: (p' ++ a))).isSome = true
    unfold searchScript
    cases hm : matchScriptAt (c :: (p' ++ a)) with
    | some rest => simp
    | none =>
      cases hs : searchScript (p' ++ a) with
      | none => rw [hs] at ih; exact absurd ih (by simp)
      | some pr => cases pr with | mk p s => simp

theorem matchScriptAt_fail_all {a : List Char} (ha : hasSub scriptOpen7 a = false) :
    ∀ t, t <:+ a → matchScriptAt t = none := fun t ht =>
  matchScriptAt_strip_none (hasSub_false_strip ha t ht)

theorem matchScriptAt_tagClose_suffix (r : List Char) :
    ∀ t, t <:+ tagCloseL → t ≠ [] → matchScriptAt (t ++ r) = none := by
  intro t ht hne
  have ht' : t ∈ tagCloseL.tails := (List.mem_tails _ _).mpr ht
  simp only [tagCloseL, List.tails, List.mem_cons,
    List.not_mem_nil, or_false] at ht'
  rcases ht' with rfl | rfl | rfl | rfl | rfl | rfl | rfl | rfl | rfl | rfl
  all_goals first
    | exact absurd rfl hne
    | simp [matchScriptAt, stripPre, scriptOpen7]

theorem matchScriptAt_tagOpen_suffix (r : List Char) :
    ∀ t, t <:+ tagOpenL → t ≠ [] → matchScriptAt (t ++ r) = none := by
  intro t ht hne
  have ht' : t ∈ tagOpenL.tails := (List.mem_tails _ _).mpr ht
  simp only [tagOpenL, List.tails, List.mem_cons,
    List.not_mem_nil, or_false] at ht'
  rcases ht' with rfl | rfl | rfl | rfl | rfl | rfl | rfl | rfl | rfl
  all_goals first
    | exact absurd rfl hne
    | simp [matchScriptAt, stripPre, scriptOpen7, isWsChar, List.dropWhile_cons]

theorem no_ref_in_bundled {b code a : List Char}
    (hb : hasSub scriptOpen7 b = false) (hcode : hasSub scriptOpen7 code = false)
    (ha : hasSub scriptOpen7 a = false) :
    hasScriptRef (b ++ (tagOpenL ++ (code ++ (tagCloseL ++ a)))) = false := by
  have hall : ∀ t, t <:+ b ++ (tagOpenL ++ (code ++ (tagCloseL ++ a))) →
      matchScriptAt t = none := by
    intro t ht
    rcases suffix_append_cases ht with h1 | ⟨t', ht', hne, rfl⟩
    · rcases suffix_append_cases h1 with h2 | ⟨t', ht', hne, rfl⟩
      · rcases suffix_append_cases h2 with h3 | ⟨t', ht', hne, rfl⟩
        · rcases suffix_append_cases h3 with h4 | ⟨t', ht', hne, rfl⟩
          · exact matchScriptAt_fail_all ha t h4
          · exact matchScriptAt_tagClose_suffix a t' ht' hne
        · simpa [tagCloseL] using
            matchScriptAt_junk ('/' :: 's' :: 'c' :: 'r' :: 'i' :: 'p' :: 't' :: '>' :: a)
              hcode t' ht' hne
      · exact matchScriptAt_tagOpen_suffix (code ++ (tagCloseL ++ a)) t' ht' hne
    · simpa [tagOpenL] using
        matchScriptAt_junk
          ('s' :: 'c' :: 'r' :: 'i' :: 'p' :: 't' :: '>' :: (code ++ (tagCloseL ++ a)))
          hb t' ht' hne
  unfold hasScriptRef
  rw [searchScript_none_of_all_fail hall]
  rfl

theorem searchScript_at_tag {b w v a : List Char} (hb : hasSub scriptOpen7 b = false)
    (hw : w ≠ []) (hws : w.all isWsChar = true)
    (hv : v.all (fun c => !(c = '\x22')) = true) :
    searchScript (b ++ (scriptOpen7 ++ (w ++ (scriptLit ++ (v ++ (scriptTail ++ a))))))
      = some (b, a) := by
  have hmatch := @matchScriptAt_block w v a hw hws hv
  have hm2 : matchScriptAt
      ('<' :: 's' :: 'c' :: 'r' :: 'i' :: 'p' :: 't' :: (w ++ (scriptLit ++ (v ++ (scriptTail ++ a)))))
      = some a := by
    simpa [scriptOpen7] using hmatch
  have hstep : searchScript (scriptOpen7 ++ (w ++ (scriptLit ++ (v ++ (scriptTail ++ a)))))
      = some ([], a) := by
    rw [show scriptOpen7 ++ (w ++ (scriptLit ++ (v ++ (scriptTail ++ a))))
        = '<' :: 's' :: 'c' :: 'r' :: 'i' :: 'p' :: 't' :: (w ++ (scriptLit ++ (v ++ (scriptTail ++ a))))
      from rfl]
    rw [searchScript_cons, hm2]
  have hwalk := @searchScript_junk_walk
    b (scriptOpen7 ++ (w ++ (scriptLit ++ (v ++ (scriptTail ++ a)))))
    (fun t ht hne => by
      simpa [scriptOpen7] using
        matchScriptAt_junk
          ('s' :: 'c' :: 'r' :: 'i' :: 'p' :: 't' :: (w ++ (scriptLit ++ (v ++ (scriptTail ++ a)))))
          hb t ht hne)
  rw [hwalk, hstep]
  simp

/-- C6: the offline bundler applied to a document with no occurrence of the
CDN script-tag pattern returns the document text unchanged. -/
theorem bundler_noop_when_no_ref (html code : List Char) (h : hasScriptRef html = false) :
    build_offline_html html code = html := by
  unfold hasScriptRef at h
  unfold build_offline_html
  rw [isSome_false h]

/-- Witness for C6 at a concrete script-free document. -/
theorem bundler_noop_when_no_ref_witness :
    hasScriptRef ("<html><body>plain</body></html>".toList) = false ∧
    build_offline_html ("<html><body>plain</body></html>".toList) ("X();".toList)
      = "<html><body>plain</body></html>".toList :=
  ⟨by decide, bundler_noop_when_no_ref _ _ (by decide)⟩

/-- A concrete CDN mermaid script tag matching the pattern of
`build_offline_html`. -/
def cdnTag : List Char :=
  scriptOpen7 ++ ([' '] ++ (scriptLit ++ (['1', '0'] ++ scriptTail)))

/-- A document carrying two CDN mermaid script references. -/
def twoRefDoc : List Char := cdnTag ++ ('x' :: cdnTag)

/-- Counterexample to C5 as stated: this document contains the expected
script reference, yet the bundled output still contains a network-sourced
script reference for the rendering engine (the second occurrence survives). -/
theorem bundler_leftover_ref_counterexample :
    hasScriptRef twoRefDoc = true ∧
    hasScriptRef (build_offline_html twoRefDoc ['X']) = true := by decide

/-- C5 (amended): for a document with exactly one CDN script reference whose
surrounding text and engine asset contain no other `<script` tag start, the
bundled output is the document with the reference replaced by the inlined
asset byte for byte, and no network-sourced reference remains. -/
theorem bundler_single_ref_offline {b w v a code : List Char}
    (hb : hasSub scriptOpen7 b = false) (hw : w ≠ []) (hws : w.all isWsChar = true)
    (hv : v.all (fun c => !(c = '\x22')) = true)
    (hcode : hasSub scriptOpen7 code = false) (ha : hasSub scriptOpen7 a = false) :
    build_offline_html (b ++ (scriptOpen7 ++ (w ++ (scriptLit ++ (v ++ (scriptTail ++ a)))))) code
      = b ++ (tagOpenL ++ (code ++ (tagCloseL ++ a)))
    ∧ hasScriptRef
        (build_offline_html (b ++ (scriptOpen7 ++ (w ++ (scriptLit ++ (v ++ (scriptTail ++ a)))))) code)
      = false := by
  have hsearch := @searchScript_at_tag b w v a hb hw hws hv
  have h1 : build_offline_html
      (b ++ (scriptOpen7 ++ (w ++ (scriptLit ++ (v ++ (scriptTail ++ a)))))) code
      = b ++ (tagOpenL ++ (code ++ (tagCloseL ++ a))) := by
    unfold build_offline_html
    rw [hsearch]
  refine ⟨h1, ?_⟩
  rw [h1]
  exact no_ref_in_bundled hb hcode ha

/-- Witness for the amended C5 at concrete document pieces. -/
theorem bundler_single_ref_offline_witness :
    hasSub scriptOpen7 ("<p>x</p>".toList) = false ∧
    (build_offline_html
        ("<p>x</p>".toList ++ (scriptOpen7 ++ ([' '] ++ (scriptLit ++ (['1', '0'] ++ (scriptTail ++ "<p>y</p>".toList)))))) ("X();".toList)
      = "<p>x</p>".toList ++ (tagOpenL ++ ("X();".toList ++ (tagCloseL ++ "<p>y</p>".toList)))
    ∧ hasScriptRef
        (build_offline_html
          ("<p>x</p>".toList ++ (scriptOpen7 ++ ([' '] ++ (scriptLit ++ (['1', '0'] ++ (scriptTail ++ "<p>y</p>".toList)))))) ("X();".toList))
      = false) :=
  ⟨by decide,
    bundler_single_ref_offline (by decide) (by decide) (by decide) (by decide)
      (by decide) (by decide)⟩

/-- C9: only the first matching occurrence is replaced; the text after the
first match, containing every later matching reference, is appended to the
output verbatim, so a later reference remains live in the output. -/
theorem bundler_replaces_first_only {html code b a : List Char}
    (h : searchScript html = some (b, a)) (h2 : hasScriptRef a = true) :
    build_offline_html html code = b ++ (tagOpenL ++ (code ++ (tagCloseL ++ a)))
    ∧ hasScriptRef (build_offline_html html code) = true := by
  have h1 : build_offline_html html code = b ++ (tagOpenL ++ (code ++ (tagCloseL ++ a))) := by
    unfold build_offline_html
    rw [h]
  refine ⟨h1, ?_⟩
  rw [h1]
  have h3 := hasScriptRef_append_right (b ++ (tagOpenL ++ (code ++ tagCloseL))) a h2
  simpa [List.append_assoc] using h3

/-- Witness for C9 at the concrete two-reference document. -/
theorem bundler_replaces_first_only_witness :
    searchScript twoRefDoc = some ([], 'x' :: cdnTag) ∧
    (build_offline_html twoRefDoc ['X'] = [] ++ (tagOpenL ++ (['X'] ++ (tagCloseL ++ ('x' :: cdnTag))))
    ∧ hasScriptRef (build_offline_html twoRefDoc ['X']) = true) :=
  ⟨by decide, bundler_replaces_first_only (by decide) (by decide)⟩

/-- Concrete two-block document decomposition used to witness extraction. -/
def demoParts : List (List Char × List Char × List Char) :=
  [("<h1>intro</h1>".toList, [' '], "graph TD".toList),
   ("mid".toList, ['\n'], " A-->B ".toList)]

/-- Witness for C3 at a concrete two-block document. -/
theorem extraction_counts_blocks_witness :
    goodParts demoParts ("tail".toList) = true ∧
    extract_mermaid_blocks (renderDoc demoParts ("tail".toList))
      = [pyTrim ("graph TD".toList), pyTrim (" A-->B ".toList)] :=
  ⟨by decide, by rw [extraction_counts_blocks demoParts ("tail".toList) (by decide)]; decide⟩

/-- Python's `f"{n:02d}"` on a nonnegative value: decimal digits padded on the
left with `0` to at least two characters. -/
def pad2 (n : Nat) : String :=
  if n < 10 then "0" ++ Nat.repr n else Nat.repr n

/-- The label table of render_diagrams.py, consulted by position. -/
def DIAGRAM_LABELS : List String :=
  ["system_overview", "data_ingestion", "solve_pipeline", "presolve_llm",
   "solver_engine", "postsolve_llm", "auto_runner", "contract_lifecycle",
   "decision_ledger", "whatif_analysis", "end_to_end"]

/-- The label expression of the render loop:
`DIAGRAM_LABELS[i] if i < len(DIAGRAM_LABELS) else f"diagram_{i+1}"`,
generalised over the table it reads. -/
def labelForTable (labels : List String) (i : Nat) : String :=
  if h : i < labels.length then labels.get ⟨i, h⟩ else "diagram_" ++ Nat.repr (i + 1)

/-- The per-diagram output file name `f"{i+1:02d}_{label}.png"`. -/
def diagramFileName (labels : List String) (i : Nat) : String :=
  pad2 (i + 1) ++ "_" ++ labelForTable labels i ++ ".png"

/-- Output path of diagram i, inside the `diagram_images` directory. -/
def outName (i : Nat) : String :=
  "diagram_images/" ++ diagramFileName DIAGRAM_LABELS i

/-- Ephemeral document path of diagram i: `f"_tmp_diagram_{i}.html"`. -/
def tmpName (i : Nat) : String :=
  "_tmp_diagram_" ++ Nat.repr i ++ ".html"

/-- A filesystem: a map from paths to file contents. -/
abbrev FS := String → Option String

/-- Writing a file (Path.write_text, or a screenshot / PDF landing on disk). -/
def fsWrite (fs : FS) (p c : String) : FS :=
  fun q => if q = p then some c else fs q

/-- Deleting a file (Path.unlink with missing_ok). -/
def fsUnlink (fs : FS) (p : String) : FS :=
  fun q => if q = p then none else fs q

/-- The empty filesystem. -/
def fsEmpty : FS := fun _ => none

/-- The standalone document `build_single_diagram_html` of render_diagrams.py
wraps a diagram in, with the engine asset inlined and fixed theme options. -/
def build_single_diagram_html (mermaid_code mermaid_js : String) : String :=
  "<!DOCTYPE html>\n<html><head>\n<meta charset=\"UTF-8\">\n<script>" ++ mermaid_js
    ++ "</script>\n<style>\n  body \x7b margin: 0; padding: 24px; background: white; \x7d\n  .mermaid \x7b display: flex; justify-content: center; \x7d\n</style>\n</head><body>\n<div class=\"mermaid\">\n"
    ++ mermaid_code
    ++ "\n</div>\n<script>\nmermaid.initialize(\x7b\n  startOnLoad: true,\n  theme: \x27base\x27,\n  themeVariables: \x7b\n    primaryColor: \x27#ebf5fb\x27,\n    primaryBorderColor: \x27#2e86de\x27,\n    primaryTextColor: \x27#0b1d3a\x27,\n    lineColor: \x27#5a6c7d\x27,\n    secondaryColor: \x27#fef9e7\x27,\n    tertiaryColor: \x27#eafaf1\x27,\n    fontSize: \x2714px\x27\n  \x7d,\n  flowchart: \x7b htmlLabels: true, curve: \x27basis\x27, padding: 16 \x7d\n\x7d);\n</script>\n</body></html>"

/-- State of one rendered diagram container as the in-page completion
predicates observe it: the data-processed marker and the svg child. -/
structure DiagramEl where
  processed : Bool
  hasSvg : Bool

/-- The per-diagram completion predicate of render_diagrams.py, evaluated in
the page: the `.mermaid` container exists and is marked processed or already
holds an svg child. -/
def singleReady : Option DiagramEl → Bool
  | none => false
  | some el => el.processed || el.hasSvg

/-- Did the per-diagram predicate become true at some poll instant up to n? -/
def singleReadyWithin (trace : Nat → Option DiagramEl) : Nat → Bool
  | 0 => singleReady (trace 0)
  | n + 1 => singleReadyWithin trace n || singleReady (trace (n + 1))

/-- The document-export readiness predicate of generate_pdf.py: there is at
least one diagram container and every container is processed or has an svg
child. -/
def exportReady (ds : List DiagramEl) : Bool :=
  decide (0 < ds.length) && ds.all (fun d => d.processed || d.hasSvg)

/-- Did the export predicate become true at some poll instant up to n? -/
def readyWithin (trace : Nat → List DiagramEl) : Nat → Bool
  | 0 => exportReady (trace 0)
  | n + 1 => readyWithin trace n || exportReady (trace (n + 1))

/-- Out-of-process browser outcomes of one per-diagram render job: navigation
within its timeout, predicate satisfaction within its timeout, and the two
query_selector probes for the screenshot target. -/
structure JobOutcome where
  gotoOk : Bool
  predOk : Bool
  svgFound : Bool
  containerFound : Bool

/-- One iteration of the render loop of render_diagrams.py main(): write the
ephemeral document, navigate, await the completion predicate, screenshot the
best available element, then close the page and delete the ephemeral file.
A timeout or a missing element raises, leaving the remaining statements of
the iteration unexecuted; the raster bytes are abstracted as "PNG". -/
def runJob (fs : FS) (i : Nat) (code mermaid_js : String) (oc : JobOutcome) :
    FS × Except String Unit :=
  let fs1 := fsWrite fs (tmpName i) (build_single_diagram_html code mermaid_js)
  if oc.gotoOk = false then (fs1, Except.error "TimeoutError: page.goto")
  else if oc.predOk = false then (fs1, Except.error "TimeoutError: wait_for_function")
  else if oc.svgFound || oc.containerFound then
    (fsUnlink (fsWrite fs1 (outName i) "PNG") (tmpName i), Except.ok ())
  else (fs1, Except.error "AttributeError: screenshot of None")

/-- A per-diagram render job whose wait_for_function outcome is determined by
polling the in-page predicate along a trace, bounded by the 30000 ms timeout. -/
def runJobTrace (fs : FS) (i : Nat) (code mermaid_js : String) (gotoOk : Bool)
    (trace : Nat → Option DiagramEl) (svgFound containerFound : Bool) :
    FS × Except String Unit :=
  runJob fs i code mermaid_js
    ⟨gotoOk, singleReadyWithin trace 30000, svgFound, containerFound⟩

/-- The `for i, code in enumerate(blocks)` loop of render_diagrams.py main():
jobs run sequentially and an exception raised by one iteration propagates,
ending the loop. -/
def runBatch (mermaid_js : String) : FS → Nat → List (String × JobOutcome) →
    FS × Except String Unit
  | fs, _, [] => (fs, Except.ok ())
  | fs, i, (code, oc) :: rest =>
    match runJob fs i code mermaid_js oc with
    | (fs', Except.ok _) => runBatch mermaid_js fs' (i + 1) rest
    | (fs', Except.error e) => (fs', Except.error e)

/-- Source document path of generate_pdf.py. -/
def HTML_PATH : String := "process_flows.html"

/-- Engine asset path of generate_pdf.py. -/
def MERMAID_JS_PATH : String := "node_modules/mermaid/dist/mermaid.min.js"

/-- Ephemeral offline document path of generate_pdf.py. -/
def offlineTmp : String := "_process_flows_offline.html"

/-- Output path of the document export. -/
def PDF_PATH : String := "process_flows.pdf"

/-- The text produced by build_offline_html for given document and asset
contents, at the String level. -/
def build_offline_text (html code : String) : String :=
  String.mk (build_offline_html html.data code.data)

/-- The filesystem action of build_offline_html in generate_pdf.py: read the
source document and the engine asset, write the rewritten text to the new
ephemeral file, and return its path; a missing input raises. -/
def build_offline_html_fs (fs : FS) : Option (FS × String) :=
  match fs HTML_PATH, fs MERMAID_JS_PATH with
  | some html, some mjs =>
    some (fsWrite fs offlineTmp (build_offline_text html mjs), offlineTmp)
  | _, _ => none

/-- Out-of-process outcomes of the document export: browser launch, navigation
within its timeout, and the aggregate readiness wait. -/
structure ExportOutcome where
  launchOk : Bool
  gotoOk : Bool
  waitOk : Bool

/-- The main() of generate_pdf.py after the ephemeral offline document is
written: everything from launch to pdf runs inside try, and the finally block
unlinks the ephemeral document on every exit path. -/
def runExport (fs : FS) (html code : String) (oc : ExportOutcome) :
    FS × Except String Unit :=
  let fs1 := fsWrite fs offlineTmp (build_offline_text html code)
  if oc.launchOk = false then
    (fsUnlink fs1 offlineTmp, Except.error "browser launch failed")
  else if oc.gotoOk = false then
    (fsUnlink fs1 offlineTmp, Except.error "TimeoutError: page.goto")
  else if oc.waitOk = false then
    (fsUnlink fs1 offlineTmp, Except.error "TimeoutError: wait_for_function")
  else
    (fsUnlink (fsWrite fs1 PDF_PATH "PDF") offlineTmp, Except.ok ())

/-- A document export whose wait_for_function outcome is determined by polling
the aggregate readiness predicate along a trace, bounded by 60000 ms. -/
def runExportTrace (fs : FS) (html code : String) (launchOk gotoOk : Bool)
    (trace : Nat → List DiagramEl) : FS × Except String Unit :=
  runExport fs html code ⟨launchOk, gotoOk, readyWithin trace 60000⟩

theorem outName_head (i : Nat) : (outName i).data.head? = some 'd' := rfl

theorem tmpName_head (i : Nat) : (tmpName i).data.head? = some '_' := rfl

theorem outName_ne_tmpName (i j : Nat) : ¬ outName i = tmpName j := by
  intro h
  have h2 : (outName i).data.head? = (tmpName j).data.head? := by rw [h]
  rw [outName_head, tmpName_head] at h2
  exact absurd h2 (by decide)

theorem singleReadyWithin_false (trace : Nat → Option DiagramEl)
    (h : ∀ t, singleReady (trace t) = false) :
    ∀ n, singleReadyWithin trace n = false := by
  intro n
  induction n with
  | zero => simpa [singleReadyWithin] using h 0
  | succ m ih => simp [singleReadyWithin, ih, h (m + 1)]

theorem readyWithin_false (trace : Nat → List DiagramEl)
    (h : ∀ t, trace t = []) : ∀ n, readyWithin trace n = false := by
  intro n
  induction n with
  | zero => simp [readyWithin, h 0, exportReady]
  | succ m ih => simp [readyWithin, ih, h (m + 1), exportReady]

/-- Counterexample to C1 as stated: a per-diagram render job whose
render-completion wait times out returns with its ephemeral document still on
disk (render_diagrams.py has no try/finally around the loop body; the unlink
is only reached on the success path). -/
theorem ephemeral_cleanup_counterexample :
    ((runJob fsEmpty 0 "" "" ⟨true, false, true, true⟩).1 (tmpName 0)).isSome = true := by
  simp [runJob, fsWrite]

/-- C1 (amended): the document-export job deletes its ephemeral offline
document on every exit path (launch failure, navigation timeout, readiness
timeout, success); the per-diagram render job deletes its ephemeral document
on its success path only. -/
theorem ephemeral_cleanup_amended (fs fs2 : FS) (html code cjs mjs : String) (i : Nat)
    (eoc : ExportOutcome) (joc : JobOutcome)
    (h1 : joc.gotoOk = true) (h2 : joc.predOk = true)
    (h3 : (joc.svgFound || joc.containerFound) = true) :
    (runExport fs html code eoc).1 offlineTmp = none
    ∧ (runJob fs2 i cjs mjs joc).1 (tmpName i) = none := by
  constructor
  · obtain ⟨l, g, w⟩ := eoc
    cases l <;> cases g <;> cases w <;> simp [runExport, fsUnlink]
  · obtain ⟨g, p, sv, cf⟩ := joc
    simp only at h1 h2 h3
    subst h1
    subst h2
    simp [runJob, h3, fsUnlink]

/-- Witness for the amended C1 at concrete outcomes. -/
theorem ephemeral_cleanup_amended_witness :
    (runExport fsEmpty "" "" ⟨false, true, true⟩).1 offlineTmp = none
    ∧ (runJob fsEmpty 0 "" "" ⟨true, true, true, true⟩).1 (tmpName 0) = none :=
  ephemeral_cleanup_amended fsEmpty fsEmpty "" "" "" "" 0
    ⟨false, true, true⟩ ⟨true, true, true, true⟩ rfl rfl rfl

/-- Counterexample to C2 as stated: the first job's render-completion timeout
raises out of the loop, so the batch ends with that error and the second
job — which would have succeeded — never runs and leaves no output file. -/
theorem batch_abort_counterexample :
    (runBatch "" fsEmpty 0
        [("a", ⟨true, false, true, true⟩), ("b", ⟨true, true, true, true⟩)]).2
      = Except.error "TimeoutError: wait_for_function"
    ∧ (runBatch "" fsEmpty 0
        [("a", ⟨true, false, true, true⟩), ("b", ⟨true, true, true, true⟩)]).1 (outName 1)
      = none :=
  ⟨rfl, rfl⟩

/-- C2 (amended): any error in a per-diagram render job (navigation timeout,
render-completion timeout, missing renderable element) propagates uncaught
across the batch boundary: the batch returns that error and the remaining
sibling jobs do not run — the filesystem is exactly as the failing job left
it and no result object is produced. -/
theorem batch_aborts_on_job_error (fs : FS) (mjs code : String) (i : Nat)
    (oc : JobOutcome) (rest : List (String × JobOutcome)) (e : String)
    (h : (runJob fs i code mjs oc).2 = Except.error e) :
    runBatch mjs fs i ((code, oc) :: rest)
      = ((runJob fs i code mjs oc).1, Except.error e) := by
  rcases hrj : runJob fs i code mjs oc with ⟨fs', r⟩
  rw [hrj] at h
  simp only at h
  subst h
  show runBatch mjs fs i ((code, oc) :: rest) = ((fs', Except.error e).1, Except.error e)
  unfold runBatch
  rw [hrj]

/-- Witness for the amended C2 at a concrete failing job. -/
theorem batch_aborts_on_job_error_witness :
    (runJob fsEmpty 0 "a" "" ⟨true, false, true, true⟩).2
      = Except.error "TimeoutError: wait_for_function"
    ∧ runBatch "" fsEmpty 0 [("a", ⟨true, false, true, true⟩)]
      = ((runJob fsEmpty 0 "a" "" ⟨true, false, true, true⟩).1,
          Except.error "TimeoutError: wait_for_function") :=
  ⟨rfl, batch_aborts_on_job_error fsEmpty "" "a" 0 ⟨true, false, true, true⟩ []
    "TimeoutError: wait_for_function" rfl⟩

theorem runJob_predFalse (fs : FS) (i : Nat) (code mjs : String) (sv cf : Bool)
    (h0 : fs (outName i) = none) :
    (runJob fs i code mjs ⟨true, false, sv, cf⟩).1 (outName i) = none
    ∧ (runJob fs i code mjs ⟨true, false, sv, cf⟩).2
      = Except.error "TimeoutError: wait_for_function" := by
  constructor
  · simp [runJob, fsWrite, outName_ne_tmpName i i, h0]
  · simp [runJob]

/-- C7: a per-diagram render job whose completion predicate never becomes
true within the timeout bound returns the timeout error and creates no file
of any kind at that diagram's output path. -/
theorem timeout_no_output (fs : FS) (i : Nat) (code mjs : String)
    (trace : Nat → Option DiagramEl) (sv cf : Bool)
    (htrace : ∀ t, singleReady (trace t) = false)
    (h0 : fs (outName i) = none) :
    (runJobTrace fs i code mjs true trace sv cf).1 (outName i) = none
    ∧ (runJobTrace fs i code mjs true trace sv cf).2
      = Except.error "TimeoutError: wait_for_function" := by
  have hpred : singleReadyWithin trace 30000 = false :=
    singleReadyWithin_false trace htrace 30000
  have hjob : runJobTrace fs i code mjs true trace sv cf
      = runJob fs i code mjs ⟨true, false, sv, cf⟩ :=
    congrArg (fun b => runJob fs i code mjs ⟨true, b, sv, cf⟩) hpred
  rw [hjob]
  exact runJob_predFalse fs i code mjs sv cf h0

/-- Witness for C7 with a page whose container never appears. -/
theorem timeout_no_output_witness :
    (runJobTrace fsEmpty 0 "" "" true (fun _ => none) true true).1 (outName 0) = none
    ∧ (runJobTrace fsEmpty 0 "" "" true (fun _ => none) true true).2
      = Except.error "TimeoutError: wait_for_function" :=
  timeout_no_output fsEmpty 0 "" "" (fun _ => none) true true (fun _ => rfl) rfl

/-- C8: the bundler's filesystem action writes the rewritten text only to the
new ephemeral file: the source document is unchanged, the ephemeral file holds
the rewritten text, and every other path is untouched. -/
theorem bundler_preserves_source (fs : FS) (html mjs : String)
    (h1 : fs HTML_PATH = some html) (h2 : fs MERMAID_JS_PATH = some mjs) :
    build_offline_html_fs fs
      = some (fsWrite fs offlineTmp (build_offline_text html mjs), offlineTmp)
    ∧ (fsWrite fs offlineTmp (build_offline_text html mjs)) HTML_PATH = some html
    ∧ (fsWrite fs offlineTmp (build_offline_text html mjs)) offlineTmp
      = some (build_offline_text html mjs)
    ∧ ∀ q, ¬ q = offlineTmp →
        (fsWrite fs offlineTmp (build_offline_text html mjs)) q = fs q := by
  refine ⟨?_, ?_, ?_, ?_⟩
  · unfold build_offline_html_fs
    rw [h1, h2]
  · show (if HTML_PATH = offlineTmp then some (build_offline_text html mjs) else fs HTML_PATH)
      = some html
    rw [if_neg (by decide)]
    exact h1
  · show (if offlineTmp = offlineTmp then some (build_offline_text html mjs) else fs offlineTmp)
      = some (build_offline_text html mjs)
    rw [if_pos rfl]
  · intro q hq
    show (if q = offlineTmp then some (build_offline_text html mjs) else fs q) = fs q
    rw [if_neg hq]

/-- Witness for C8 at a concrete two-file filesystem. -/
theorem bundler_preserves_source_witness :
    (fsWrite (fsWrite (fsWrite fsEmpty HTML_PATH "<html/>") MERMAID_JS_PATH "X()")
        offlineTmp (build_offline_text "<html/>" "X()")) HTML_PATH = some "<html/>" :=
  (bundler_preserves_source
    (fsWrite (fsWrite fsEmpty HTML_PATH "<html/>") MERMAID_JS_PATH "X()")
    "<html/>" "X()" (by decide) (by decide)).2.1

theorem runExport_waitFalse (fs : FS) (html code : String)
    (h0 : fs PDF_PATH = none) :
    (runExport fs html code ⟨true, true, false⟩).1 PDF_PATH = none
    ∧ (runExport fs html code ⟨true, true, false⟩).2
      = Except.error "TimeoutError: wait_for_function" := by
  have hne : ¬ PDF_PATH = offlineTmp := by decide
  constructor
  · simp [runExport, fsUnlink, fsWrite, hne, h0]
  · simp [runExport]

/-- C10: the export readiness predicate demands at least one diagram
container, so on a page that never has any container it is false at every
poll; the export then fails with the wait timeout and no PDF is written. -/
theorem export_timeout_without_containers (fs : FS) (html code : String)
    (trace : Nat → List DiagramEl) (htrace : ∀ t, trace t = [])
    (h0 : fs PDF_PATH = none) :
    exportReady [] = false
    ∧ (runExportTrace fs html code true true trace).1 PDF_PATH = none
    ∧ (runExportTrace fs html code true true trace).2
      = Except.error "TimeoutError: wait_for_function" := by
  have hready : readyWithin trace 60000 = false := readyWithin_false trace htrace 60000
  have hexp : runExportTrace fs html code true true trace
      = runExport fs html code ⟨true, true, false⟩ :=
    congrArg (fun b => runExport fs html code ⟨true, true, b⟩) hready
  refine ⟨rfl, ?_, ?_⟩
  · rw [hexp]
    exact (runExport_waitFalse fs html code h0).1
  · rw [hexp]
    exact (runExport_waitFalse fs html code h0).2

/-- Witness for C10 with a page that never has a diagram container. -/
theorem export_timeout_without_containers_witness :
    exportReady [] = false
    ∧ (runExportTrace fsEmpty "" "" true true (fun _ => [])).1 PDF_PATH = none
    ∧ (runExportTrace fsEmpty "" "" true true (fun _ => [])).2
      = Except.error "TimeoutError: wait_for_function" :=
  export_timeout_without_containers fsEmpty "" "" (fun _ => []) (fun _ => rfl) rfl

/-- File name following the claim's words: the 1-based ordinal zero-padded to
two digits, an underscore, then the i-th label when i is within the table and
otherwise `diagram_` followed by the 1-based ordinal, with the image suffix. -/
def specFileName (labels : List String) (i : Nat) : String :=
  (if i + 1 < 10 then "0" ++ Nat.repr (i + 1) else Nat.repr (i + 1)) ++ "_" ++
    (if h : i < labels.length then labels.get ⟨i, h⟩
     else "diagram_" ++ Nat.repr (i + 1)) ++ ".png"

/-- C4: the per-diagram output file name agrees with the claim's naming rule
for every table and index, and a 3-diagram document with the 2-entry table
["alpha", "beta"] yields 01_alpha, 02_beta, 03_diagram_3 in that order. -/
theorem diagram_file_names :
    (∀ labels i, diagramFileName labels i = specFileName labels i)
    ∧ (List.range 3).map (diagramFileName ["alpha", "beta"])
      = ["01_alpha.png", "02_beta.png", "03_diagram_3.png"] := by
  constructor
  · intro labels i
    rfl
  · decide
